import Mathlib

/-!
Verification of `microAO/aoAlg.py` (microscope-aotools).

The Python module is shallowly embedded over `ℚ`:

* numpy 2-D arrays are modelled as total functions `ℕ → ℕ → ℚ` together with
  explicit dimensions (complex-valued spectra as `ℕ → ℕ → ℚ × ℚ`, real part
  first); 1-D arrays are `List ℚ`;
* library numerics that the module merely calls (FFTs, Otsu threshold, centre
  of mass, `aotools.zernike`, `scipy.optimize.curve_fit`, `np.linalg.pinv`,
  the image-quality metrics of `microAO.aoMetrics`) are taken as explicit
  function parameters, while every piece of control flow, indexing, slicing
  and arithmetic written in `aoAlg.py` itself is embedded concretely;
* a Python `raise` becomes an `Except.error` value.
-/

/-! ### Python slice and broadcast semantics (used by `make_fft_filter`) -/

/-- Clamp an integer slice bound to `[0, n]` the way Python's
`slice.indices` does for step 1: a negative bound is first shifted by `n`,
then clamped to `[0, n]`. -/
def clampIdx (x : ℤ) (n : ℕ) : ℕ :=
  if x < 0 then (if x + n < 0 then 0 else (x + n).toNat) else min x.toNat n

/-- The row (or column) indices selected by the Python slice `lo:hi` on an
axis of length `n`.  Never contains an index `≥ n`. -/
def pySliceIdx (lo hi : ℤ) (n : ℕ) : List ℕ :=
  let a := clampIdx lo n
  let b := clampIdx hi n
  List.range' a (b - a)

/-- NumPy broadcast rule for one axis of a slice assignment: a source extent
`src` broadcasts into a target extent `tgt` iff it matches or is 1. -/
def broadcastInto (src tgt : ℕ) : Bool :=
  src == tgt || src == 1

/-! ### `bin_ndarray` (lines 80-119), specialised to the 2-D arrays the
module uses.  The source reshapes to `(d0, c0/d0, d1, c1/d1)` and reduces
the two block axes in turn; element `(i, a, j, b)` of that reshape is entry
`(i*(c0/d0)+a, j*(c1/d1)+b)` of the input, so the reduction below is that
same computation written with explicit indices.  A shape for which the
reshape is impossible makes numpy raise; that is the final `.error`. -/

/-- Python's `str.lower()`, written over the character list so that it
computes by kernel reduction. -/
def pyLower (s : String) : String := ⟨s.data.map Char.toLower⟩

def bin_ndarray (c0 c1 : ℕ) (g : ℕ → ℕ → ℚ) (new_shape : List ℕ)
    (operation : String) : Except String (ℕ → ℕ → ℚ) :=
  let op := pyLower operation
  if ¬ (op = "sum" ∨ op = "mean") then .error "Operation not supported."
  else if new_shape.length ≠ 2 then .error "Shape mismatch"
  else
    let d0 := new_shape.getD 0 0
    let d1 := new_shape.getD 1 0
    let f0 := c0 / d0
    let f1 := c1 / d1
    if d0 * f0 = c0 ∧ d1 * f1 = c1 then
      if op = "sum" then
        .ok (fun i j => ∑ a ∈ Finset.range f0, ∑ b ∈ Finset.range f1,
          g (i * f0 + a) (j * f1 + b))
      else
        .ok (fun i j => (∑ a ∈ Finset.range f0,
          (∑ b ∈ Finset.range f1, g (i * f0 + a) (j * f1 + b)) / (f1 : ℚ)) / (f0 : ℚ))
    else .error "cannot reshape array"

/-- Mean of an `m × n` function-matrix (`np.mean` of the whole array). -/
def matMean (m n : ℕ) (h : ℕ → ℕ → ℚ) : ℚ :=
  (∑ i ∈ Finset.range m, ∑ j ∈ Finset.range n, h i j) / ((m : ℚ) * n)

/-! ### `get_zernike_modes` (lines 248-266) -/

/-- The `while original_dim % resize_dim is not 0: resize_dim -= 1` loop of
`get_zernike_modes`: decrement `t` until it divides `N`. -/
def chooseRes (N : ℕ) : ℕ → ℕ
  | 0 => 0
  | (t + 1) => if N % (t + 1) = 0 then t + 1 else chooseRes N t

/-- `np.trapz` with unit spacing on `n` samples `f 0, …, f (n-1)`. -/
def trapzFun (n : ℕ) (f : ℕ → ℚ) : ℚ :=
  ∑ i ∈ Finset.range (n - 1), (f i + f (i + 1)) / 2

/-- `np.count_nonzero` over an `res × res` function-matrix. -/
def countNonzero (res : ℕ) (h : ℕ → ℕ → ℚ) : ℕ :=
  (((Finset.range res) ×ˢ (Finset.range res)).filter (fun p => h p.1 p.2 ≠ 0)).card

/-- `get_zernike_modes(image_unwrap, noZernikeModes, resize_dim)`.
`zern mode size` is the `aotools.zernike(mode, size)` basis array, a
library call taken as a parameter; `N` is the square phase map's side. -/
def get_zernike_modes (zern : ℕ → ℕ → ℕ → ℕ → ℚ) (N : ℕ)
    (image_unwrap : ℕ → ℕ → ℚ) (noZernikeModes : ℕ) (resize_dim : ℕ) :
    Except String (List ℚ) :=
  let d := chooseRes N resize_dim
  let res := if d < N / d then N / d else d
  match bin_ndarray N N image_unwrap [res, res] "mean" with
  | .error e => .error e
  | .ok image_resize =>
    let num_pixels : ℕ := countNonzero res (zern 1 res)
    .ok ((List.range noZernikeModes).map (fun k =>
      trapzFun res (fun i =>
        trapzFun res (fun j => image_resize i j * zern (k + 1) res i j)) /
        (num_pixels : ℚ)))

/-! ### `create_control_matrix` (lines 268-312) -/

inductive CalibError
  /-- "Not enough Zernike mode values to calculate slope for actuator %i";
  the payload is the 1-based actuator number printed in the message. -/
  | insufficientSamples (actuator : ℕ)
deriving DecidableEq

/-- The sample rows with a nonzero poke step on actuator `ii`
(`np.where(pokeSteps[:, ii] != 0)[0]`). -/
def nonzeroSamples (S A : ℕ) (pokeSteps : Fin S → Fin A → ℚ) (ii : Fin A) :
    Finset (Fin S) :=
  Finset.univ.filter (fun s => pokeSteps s ii ≠ 0)

/-- Slope of `scipy.stats.linregress` over the selected samples, as the
closed-form least-squares slope.  (For a degenerate selection with all `x`
equal the `ℚ` convention `x / 0 = 0` is used; scipy instead warns or raises
there, and the source catches and ignores any such exception — no claim
below inspects slope values at degenerate inputs.) -/
def linregress_slope (S : ℕ) (sel : Finset (Fin S)) (xs ys : Fin S → ℚ) : ℚ :=
  let n : ℚ := sel.card
  let Sx := ∑ s ∈ sel, xs s
  let Sy := ∑ s ∈ sel, ys s
  let Sxy := ∑ s ∈ sel, xs s * ys s
  let Sxx := ∑ s ∈ sel, (xs s) ^ 2
  (n * Sxy - Sx * Sy) / (n * Sxx - Sx ^ 2)

/-- The sensitivity matrix `C_mat` built by the calibration loop: column
`ii` holds the per-mode regression slopes when `pupil_ac[ii] == 1` and
stays at its `np.zeros` initialisation otherwise. -/
def sensitivity_matrix (S M A : ℕ) (zernikeAmps : Fin S → Fin M → ℚ)
    (pokeSteps : Fin S → Fin A → ℚ) (pupil_ac : Fin A → ℚ) :
    Fin M → Fin A → ℚ :=
  fun kk ii =>
    if pupil_ac ii = 1 then
      linregress_slope S (nonzeroSamples S A pokeSteps ii)
        (fun s => pokeSteps s ii) (fun s => zernikeAmps s kk)
    else 0

/-- `create_control_matrix(zernikeAmps, pokeSteps, numActuators, pupil_ac,
threshold)`.  The loop raises at the first in-pupil actuator with fewer
than two nonzero-step samples; otherwise the control matrix is
`np.linalg.pinv(C_mat, rcond=threshold)`, the library pseudo-inverse taken
as the parameter `pinv` (applied to the sensitivity matrix and the
relative singular-value cutoff).  The pupil mask is an explicit argument:
the source's default test `np.any(pupil_ac) == None` never fires
(`np.any(None)` is `False`, not `None`), so only calls that pass a mask
are modelled. -/
def create_control_matrix (S M A : ℕ)
    (pinv : (Fin M → Fin A → ℚ) → ℚ → (Fin A → Fin M → ℚ))
    (zernikeAmps : Fin S → Fin M → ℚ) (pokeSteps : Fin S → Fin A → ℚ)
    (pupil_ac : Fin A → ℚ) (threshold : ℚ) :
    Except CalibError (Fin A → Fin M → ℚ) :=
  match (List.finRange A).find?
      (fun ii => decide (pupil_ac ii = 1) &&
                 decide ((nonzeroSamples S A pokeSteps ii).card < 2)) with
  | some ii => .error (.insufficientSamples (ii.val + 1))
  | none =>
    .ok (pinv (sensitivity_matrix S M A zernikeAmps pokeSteps pupil_ac) threshold)

/-! ### `ac_pos_from_zernike` (lines 314-330) -/

inductive SynthError
  /-- The bare `raise Exception` after the failed
  `assert len(actuator_pos) == numActuators`. -/
  | dimensionMismatch
deriving DecidableEq

/-- `ac_pos_from_zernike(applied_z_modes, numActuators)` against a stored
`A × M` control matrix `cm`. -/
def ac_pos_from_zernike (A M : ℕ) (cm : ℕ → ℕ → ℚ)
    (applied_z_modes : List ℚ) (numActuators : ℕ) :
    Except SynthError (List ℚ) :=
  let len := applied_z_modes.length
  let applied :=
    if len < M then applied_z_modes ++ List.replicate (M - len) 0
    else if M < len then applied_z_modes.take M
    else applied_z_modes
  let actuator_pos := (List.range A).map
    (fun i => ∑ j ∈ Finset.range M, cm i j * applied.getD j 0)
  if actuator_pos.length = numActuators then .ok actuator_pos
  else .error .dimensionMismatch

/-! ### `find_zernike_amp_sensorless` (lines 336-365) -/

/-- `np.mean` of a list. -/
def npMean (l : List ℚ) : ℚ := l.sum / l.length

/-- `np.var` of a list (population variance). -/
def npVar (l : List ℚ) : ℚ :=
  (l.map (fun x => (x - npMean l) ^ 2)).sum / l.length

/-- `np.max` of a list (meaningful for nonempty input, as in the source). -/
def listMax (l : List ℚ) : ℚ := l.foldl max (l.headD 0)

/-- `np.min` of a list. -/
def listMin (l : List ℚ) : ℚ := l.foldl min (l.headD 0)

/-- The parameter quadruple returned by a converged
`scipy.optimize.curve_fit` of `gaussian_funcion`. -/
structure GaussFit where
  offset : ℚ
  normalising : ℚ
  mean : ℚ
  std_dev : ℚ
deriving DecidableEq

/-- A Python value that is either a scalar or a 1-D array: the fallback
branch of `find_zernike_amp_sensorless` returns the *array*
`zernike_amplitudes[metrics_measured == np.max(metrics_measured)]`
(negated), while the other branches return scalars. -/
inductive PyVal
  | scalar (q : ℚ)
  | arr (l : List ℚ)
deriving DecidableEq

/-- `find_zernike_amp_sensorless(image_stack, zernike_amplitudes)`.
`metric` is the selected image-quality metric (a `microAO.aoMetrics`
function, not part of this module); `curve_fit` is
`scipy.optimize.curve_fit`, taken as a parameter receiving the amplitudes,
the measured metrics and the two bounds on the fitted peak location, and
returning `none` when it raises `RuntimeError`.  The fallback test
`max_from_mean_var >= 2*np.sqrt(np.var(metrics_measured))` is written in
the equivalent squared form: both sides are nonnegative (the maximum of a
list never falls below its mean), so squaring preserves the comparison —
see `twoSigma_sq_iff` below. -/
def find_zernike_amp_sensorless {Img : Type} (metric : Img → ℚ)
    (curve_fit : List ℚ → List ℚ → ℚ → ℚ → Option GaussFit)
    (image_stack : List Img) (zernike_amplitudes : List ℚ) : PyVal :=
  let metrics_measured := image_stack.map metric
  let z_l_bound := listMin zernike_amplitudes -
    (1/4 : ℚ) * (listMax zernike_amplitudes - listMin zernike_amplitudes)
  let z_u_bound := listMax zernike_amplitudes +
    (1/4 : ℚ) * (listMax zernike_amplitudes - listMin zernike_amplitudes)
  match curve_fit zernike_amplitudes metrics_measured z_l_bound z_u_bound with
  | some p => .scalar (-1 * p.mean)
  | none =>
    let max_from_mean_var := listMax metrics_measured - npMean metrics_measured
    if max_from_mean_var ^ 2 ≥ 4 * npVar metrics_measured then
      .arr (((zernike_amplitudes.zip metrics_measured).filter
        (fun p => p.2 = listMax metrics_measured)).map (fun p => -1 * p.1))
    else
      .scalar (-1 * 0)

/-! ### `get_zernike_modes_sensorless` (lines 367-378) -/

/-- `get_zernike_modes_sensorless(full_image_stack, full_zernike_applied,
nollZernike)`.  `estim` is the call `self.find_zernike_amp_sensorless`
(block of images, amplitudes applied to one mode); `full_zernike_applied`
is an `S × M` array given as dims plus a function; `nollZernike` the list
of 1-based mode numbers.  `numMes` is the Python floor division
`full_zernike_applied.shape[0] / nollZernike.shape[0]` (a float there, but
only used through integer slice bounds `ii*numMes:(ii+1)*numMes`). -/
def get_zernike_modes_sensorless {Img : Type}
    (estim : List Img → List ℚ → ℚ) (full_image_stack : List Img)
    (S M : ℕ) (full_zernike_applied : ℕ → ℕ → ℚ) (nollZernike : List ℕ) :
    List ℚ :=
  let K := nollZernike.length
  let numMes := S / K
  (List.range K).foldl
    (fun coef ii =>
      let image_stack := (full_image_stack.drop (ii * numMes)).take numMes
      let zernike_applied := (List.range numMes).map
        (fun t => full_zernike_applied (ii * numMes + t) (nollZernike.getD ii 0 - 1))
      coef.set (nollZernike.getD ii 0 - 1) (estim image_stack zernike_applied))
    (List.replicate M 0)

/-! ### `unwrap_interferometry` (lines 207-246) -/

/-- The component state set in `__init__` / the `set_*` methods. -/
structure AOState (α : Type) where
  mask : Option α
  fft_filter : Option α
  controlMatrix : Option (ℕ → ℕ → ℚ)
  metric : String

/-- The `__init__` state: everything `None`, metric `"fourier"`. -/
def initState (α : Type) : AOState α :=
  ⟨none, none, none, "fourier"⟩

inductive UnwrapErr
  /-- The `TypeError` numpy raises when an array is multiplied by the
  `None` stored in an uncalibrated `fft_filter` / `mask` field. -/
  | typeError
  /-- The specification's `NotCalibratedError`; no statement in
  `unwrap_interferometry` raises it. -/
  | notCalibratedError
deriving DecidableEq

/-- `unwrap_interferometry(image)`.  All numeric transforms are library
calls taken as parameters over an abstract array type `α`; `rollToCentreA`
covers lines 226-230 (the filter-peak locating `np.where`/`np.roll`
block).  When `fft_filter` is `None`, line 222 (`fftarray * M`) raises a
`TypeError`; when `mask` is `None`, line 241 (`phaseorder1 * self.mask`)
does. -/
def unwrap_interferometry {α : Type} (fftshiftA : α → α) (tukeyMulA : α → α)
    (fft2A : α → α) (mulA : α → α → α) (rollToCentreA : α → α → α)
    (ifft2A : α → α) (arctan2A : α → α) (unwrap_phaseA : α → α)
    (st : AOState α) (image : α) : Except UnwrapErr α :=
  let fringes := fftshiftA image
  let fringes_tukey := tukeyMulA fringes
  let fftarray := fft2A fringes_tukey
  match st.fft_filter with
  | none => .error .typeError
  | some filt =>
    let fftarray_filt := fftshiftA (mulA fftarray (fftshiftA filt))
    let rolled := rollToCentreA fftarray_filt filt
    let complex_phase := fftshiftA (ifft2A (fftshiftA rolled))
    let phaseorder1 := arctan2A complex_phase
    match st.mask with
    | none => .error .typeError
    | some m =>
      let phaseorder1mask := mulA phaseorder1 m
      .ok (mulA (unwrap_phaseA phaseorder1mask) m)

/-! ### `make_fft_filter` (lines 132-205) -/

/-- Complex spectrum entry: (real, imaginary). -/
abbrev CEntry := ℚ × ℚ

/-- `np.argmax`'s ordering on complex values: lexicographic on
(real, imag). -/
def cLtB (u v : CEntry) : Bool :=
  decide (u.1 < v.1 ∨ (u.1 = v.1 ∧ u.2 < v.2))

/-- `np.argmax` of an `n × n` complex array: flat (row-major) index of the
first maximum. -/
def argmaxFlat (n : ℕ) (g : ℕ → ℕ → CEntry) : ℕ :=
  (List.range (n * n)).foldl
    (fun best k => if cLtB (g (best / n) (best % n)) (g (k / n) (k % n)) then k else best) 0

/-- Lines 150-151: zero (to `0.00001+0j`) the central `2·region` square of
the shifted spectrum. -/
def zeroCentre (n region : ℕ) (g : ℕ → ℕ → CEntry) : ℕ → ℕ → CEntry :=
  let c := n / 2
  let ctr := pySliceIdx ((c : ℤ) - region) ((c : ℤ) + region) n
  fun i j => if i ∈ ctr ∧ j ∈ ctr then (1 / 100000, 0) else g i j

/-- Lines 160-165: default window 100, odd user windows rounded up to
even. -/
def adjWindow : Option ℕ → ℕ
  | none => 100
  | some w => if w % 2 ≠ 0 then w + 1 else w

inductive FilterErr
  /-- "Interferometer stripes are too fine. Please make them coarser or
  reduce window size" — raised when the windowed slice assignment's
  `ValueError` is caught. -/
  | stripesTooFine
  /-- A `ValueError` at the final mask placement (line 202), which the
  source does not catch. -/
  | valueErrorUncaught
deriving DecidableEq

/-- The per-iteration numeric update of the refinement loop: given the
spectrum and the selected (clipped) row/column indices of the current
window, produce the rounded `center_of_mass` pair `(CoM[0,0], CoM[0,1])`
of the Otsu-thresholded log-magnitude window (lines 170-180, library
numerics taken as a parameter). -/
abbrev ComStep := (ℕ → ℕ → CEntry) → List ℕ → List ℕ → ℤ × ℤ

/-- One pass of the `for ii in range(10)` loop for the current estimate
`mp = (maxpoint[0], maxpoint[1])`: extract the window
`fftarray[mp.2 - W//2 : mp.2 + W//2, mp.1 - W//2 : mp.1 + W//2]` (Python
slices clip, so fewer than `W` rows/columns survive when the window leaves
the array), assign it into the `W × W` buffer — a `ValueError` unless each
clipped extent broadcasts into `W` — and move the estimate by the window
centroid. -/
def stepOnce (fft : ℕ → ℕ → CEntry) (n W : ℕ) (com : ComStep)
    (mp : ℤ × ℤ) : Except FilterErr (ℤ × ℤ) :=
  let rows := pySliceIdx (mp.2 - (W / 2 : ℕ)) (mp.2 + (W / 2 : ℕ)) n
  let cols := pySliceIdx (mp.1 - (W / 2 : ℕ)) (mp.1 + (W / 2 : ℕ)) n
  if broadcastInto rows.length W && broadcastInto cols.length W then
    let c := com fft rows cols
    .ok (mp.1 - (W / 2 : ℕ) + c.2, mp.2 - (W / 2 : ℕ) + c.1)
  else .error .stripesTooFine

/-- `k` passes of the refinement loop. -/
def refineIter (fft : ℕ → ℕ → CEntry) (n W : ℕ) (com : ComStep) :
    ℕ → ℤ × ℤ → Except FilterErr (ℤ × ℤ)
  | 0, mp => .ok mp
  | (k + 1), mp =>
    match stepOnce fft n W com mp with
    | .ok mp' => refineIter fft n W com k mp'
    | .error e => .error e

/-- The spectrum the loop works on: library front end (`fftshift`, Tukey
window, `fft2`, `fftshift` — the parameter `spectrumOf`) followed by the
concrete central zeroing. -/
def mffSpectrum (spectrumOf : (ℕ → ℕ → CEntry) → (ℕ → ℕ → CEntry))
    (n : ℕ) (image : ℕ → ℕ → CEntry) (region? : Option ℕ) : ℕ → ℕ → CEntry :=
  zeroCentre n (region?.getD (n / 16)) (spectrumOf image)

/-- Lines 154-155: the initial first-order-point estimate
`(test_point % shape, test_point / shape)`. -/
def mffStart (n : ℕ) (fft : ℕ → ℕ → CEntry) : ℤ × ℤ :=
  let k := argmaxFlat n fft
  ((k % n : ℕ), (k / n : ℕ))

/-- `make_fft_filter(image, region, window_dim, mask_di)`.  `sinVec d t`
stands for `np.sin(np.linspace(0, π, d))[t] ** 2` (library numerics).
After the loop, the raised-sine window is written into the filter through
a clipped slice (lines 192-202) and the filter is rolled back by the
computed shifts (lines 203-204). -/
def make_fft_filter (spectrumOf : (ℕ → ℕ → CEntry) → (ℕ → ℕ → CEntry))
    (com : ComStep) (sinVec : ℕ → ℕ → ℚ) (n : ℕ) (image : ℕ → ℕ → CEntry)
    (region? window_dim? mask_di? : Option ℕ) :
    Except FilterErr (ℕ → ℕ → ℚ) :=
  let fftarray := mffSpectrum spectrumOf n image region?
  let W := adjWindow window_dim?
  match refineIter fftarray n W com 10 (mffStart n fftarray) with
  | .error e => .error e
  | .ok mp =>
    let d := mask_di?.getD (n * 5 / 16)
    let x_shift := min (0 : ℤ) (min |mp.1 - (d : ℤ)| (|mp.1 - (n : ℤ)| - d))
    let y_shift := min (0 : ℤ) (min |mp.2 - (d : ℤ)| (|mp.2 - (n : ℤ)| - d))
    let y_min := mp.2 - (d / 2 : ℕ) + y_shift
    let y_max := mp.2 + ((d + 1) / 2 : ℕ) + y_shift
    let x_min := mp.1 - (d / 2 : ℕ) + x_shift
    let x_max := mp.1 + ((d + 1) / 2 : ℕ) + x_shift
    let rowsF := pySliceIdx y_min y_max n
    let colsF := pySliceIdx x_min x_max n
    if broadcastInto d rowsF.length && broadcastInto d colsF.length then
      let placed : ℕ → ℕ → ℚ := fun i j =>
        if i ∈ rowsF ∧ j ∈ colsF then
          sinVec d (if d = 1 then 0 else rowsF.indexOf i) *
          sinVec d (if d = 1 then 0 else colsF.indexOf j)
        else 0
      .ok (fun i j =>
        placed (((i : ℤ) + y_shift).emod n).toNat (((j : ℤ) + x_shift).emod n).toNat)
    else .error .valueErrorUncaught

/-- The out-of-bounds condition of one refinement axis for estimate
coordinate `m`: the window `m - W//2 : m + W//2` leaves `[0, n]`. -/
def axisOOB (n W : ℕ) (m : ℤ) : Prop :=
  m - (W / 2 : ℕ) < 0 ∨ (n : ℤ) < m + (W / 2 : ℕ)

/-! ### Concrete instances used by the witnesses and
counterexamples below -/

def gB : ℕ → ℕ → ℚ := fun i j => 2 * i + j

def zern1 : ℕ → ℕ → ℕ → ℕ → ℚ := fun _ _ _ _ => 1

def img1 : ℕ → ℕ → ℚ := fun _ _ => 1

def pinv0 : (Fin 1 → Fin 1 → ℚ) → ℚ → (Fin 1 → Fin 1 → ℚ) := fun _ _ => fun _ _ => 0

def poke2 : Fin 2 → Fin 1 → ℚ := fun _ _ => 1

def amps2 : Fin 2 → Fin 1 → ℚ := fun _ _ => 1

def pupil1 : Fin 1 → ℚ := fun _ => 1

def poke1 : Fin 2 → Fin 1 → ℚ := fun s _ => if s.val = 0 then 1 else 0

def cm2 : ℕ → ℕ → ℚ := fun i j => 2 * i + j

def cfNone : List ℚ → List ℚ → ℚ → ℚ → Option GaussFit := fun _ _ _ _ => none

def metric4 : ℕ → ℚ := fun i => if i = 4 then 1 else 0

def cfBounded : List ℚ → List ℚ → ℚ → ℚ → Option GaussFit :=
  fun _ _ lo hi => if lo ≤ 0 ∧ 0 ≤ hi then some ⟨0, 1, 0, 1⟩ else none

def metric0 : ℕ → ℚ := fun _ => 0

def estim1 : List ℕ → List ℚ → ℚ := fun _ _ => 1

def gApplied : ℕ → ℕ → ℚ := fun s m => s + 2 * m

def stMaskOnly : AOState ℚ := ⟨some 1, none, none, "fourier"⟩

def specC : (ℕ → ℕ → CEntry) → (ℕ → ℕ → CEntry) := fun _ => fun _ _ => (0, 0)

def comC : ComStep := fun _ _ _ => (2, 2)

def sinC : ℕ → ℕ → ℚ := fun _ _ => 0

def imgC : ℕ → ℕ → CEntry := fun _ _ => (0, 0)

/-! ## Helper lemmas -/

/-- Splitting a range of length `d*f` into `d` consecutive blocks of `f`. -/
theorem sum_blocks (f : ℕ) (h : ℕ → ℚ) (d : ℕ) :
    ∑ i ∈ Finset.range d, ∑ a ∈ Finset.range f, h (i * f + a) =
    ∑ r ∈ Finset.range (d * f), h r := by
  induction d with
  | zero => simp
  | succ d ih =>
    rw [Finset.sum_range_succ, ih, Nat.succ_mul, Finset.sum_range_add]

/-- `bin_ndarray` on a mean-compatible 2-D shape succeeds, with the
two-stage mean the source's reshape-and-reduce computes. -/
theorem bin_ndarray_mean_ok (c0 c1 d0 d1 : ℕ) (g : ℕ → ℕ → ℚ)
    (hd0 : d0 ∣ c0) (hd1 : d1 ∣ c1) :
    bin_ndarray c0 c1 g [d0, d1] "mean" =
      .ok (fun i j => (∑ a ∈ Finset.range (c0 / d0),
        (∑ b ∈ Finset.range (c1 / d1),
          g (i * (c0 / d0) + a) (j * (c1 / d1) + b)) / ((c1 / d1 : ℕ) : ℚ)) /
        ((c0 / d0 : ℕ) : ℚ)) := by
  have h0 : d0 * (c0 / d0) = c0 := Nat.mul_div_cancel' hd0
  have h1 : d1 * (c1 / d1) = c1 := Nat.mul_div_cancel' hd1
  simp [bin_ndarray, h0, h1, show pyLower "mean" = "mean" by decide]

/-- The two-stage block mean preserves the global mean. -/
theorem twoStageMean_global (c0 c1 d0 d1 : ℕ) (g : ℕ → ℕ → ℚ)
    (hd0 : d0 ∣ c0) (hd1 : d1 ∣ c1) (hd0p : 0 < d0) (hd1p : 0 < d1)
    (hc0 : 0 < c0) (hc1 : 0 < c1) :
    matMean d0 d1 (fun i j => (∑ a ∈ Finset.range (c0 / d0),
      (∑ b ∈ Finset.range (c1 / d1),
        g (i * (c0 / d0) + a) (j * (c1 / d1) + b)) / ((c1 / d1 : ℕ) : ℚ)) /
      ((c0 / d0 : ℕ) : ℚ)) = matMean c0 c1 g := by
  have hf0c : d0 * (c0 / d0) = c0 := Nat.mul_div_cancel' hd0
  have hf1c : d1 * (c1 / d1) = c1 := Nat.mul_div_cancel' hd1
  have inner : ∀ i j, (∑ a ∈ Finset.range (c0 / d0),
      (∑ b ∈ Finset.range (c1 / d1),
        g (i * (c0 / d0) + a) (j * (c1 / d1) + b)) / ((c1 / d1 : ℕ) : ℚ)) /
      ((c0 / d0 : ℕ) : ℚ) =
      (∑ a ∈ Finset.range (c0 / d0), ∑ b ∈ Finset.range (c1 / d1),
        g (i * (c0 / d0) + a) (j * (c1 / d1) + b)) /
      (((c0 / d0 : ℕ) : ℚ) * ((c1 / d1 : ℕ) : ℚ)) := by
    intro i j
    rw [← Finset.sum_div, div_div,
      mul_comm ((c1 / d1 : ℕ) : ℚ) ((c0 / d0 : ℕ) : ℚ)]
  unfold matMean
  simp only [inner]
  simp only [← Finset.sum_div]
  have num : ∑ i ∈ Finset.range d0, ∑ j ∈ Finset.range d1,
      ∑ a ∈ Finset.range (c0 / d0), ∑ b ∈ Finset.range (c1 / d1),
      g (i * (c0 / d0) + a) (j * (c1 / d1) + b) =
      ∑ r ∈ Finset.range c0, ∑ s ∈ Finset.range c1, g r s := by
    calc
      ∑ i ∈ Finset.range d0, ∑ j ∈ Finset.range d1,
          ∑ a ∈ Finset.range (c0 / d0), ∑ b ∈ Finset.range (c1 / d1),
          g (i * (c0 / d0) + a) (j * (c1 / d1) + b)
        = ∑ i ∈ Finset.range d0, ∑ a ∈ Finset.range (c0 / d0),
            ∑ j ∈ Finset.range d1, ∑ b ∈ Finset.range (c1 / d1),
            g (i * (c0 / d0) + a) (j * (c1 / d1) + b) :=
          Finset.sum_congr rfl (fun i _ => Finset.sum_comm)
      _ = ∑ i ∈ Finset.range d0, ∑ a ∈ Finset.range (c0 / d0),
            ∑ s ∈ Finset.range (d1 * (c1 / d1)), g (i * (c0 / d0) + a) s := by
          refine Finset.sum_congr rfl fun i _ => Finset.sum_congr rfl fun a _ => ?_
          exact sum_blocks (c1 / d1) (fun s => g (i * (c0 / d0) + a) s) d1
      _ = ∑ r ∈ Finset.range (d0 * (c0 / d0)),
            ∑ s ∈ Finset.range (d1 * (c1 / d1)), g r s :=
          sum_blocks (c0 / d0) (fun r => ∑ s ∈ Finset.range (d1 * (c1 / d1)), g r s) d0
      _ = ∑ r ∈ Finset.range c0, ∑ s ∈ Finset.range c1, g r s := by
          rw [hf0c, hf1c]
  rw [num, div_div]
  congr 1
  have e0 : ((c0 : ℚ)) = (d0 : ℚ) * ((c0 / d0 : ℕ) : ℚ) := by exact_mod_cast hf0c.symm
  have e1 : ((c1 : ℚ)) = (d1 : ℚ) * ((c1 / d1 : ℕ) : ℚ) := by exact_mod_cast hf1c.symm
  rw [e0, e1]
  ring

/-- C10: with operation `'mean'` and dimensions that are exact multiples
of the requested 2-D output shape, `bin_ndarray` returns the array of
block means, the global mean is preserved, and an unsupported operation
name or a shape list of the wrong length yields an error instead. -/
theorem bin_ndarray_spec (c0 c1 d0 d1 : ℕ) (g : ℕ → ℕ → ℚ)
    (h0 : 0 < d0) (h1 : 0 < d1) (hd0 : d0 ∣ c0) (hd1 : d1 ∣ c1)
    (hc0 : 0 < c0) (hc1 : 0 < c1) :
    (∃ B, bin_ndarray c0 c1 g [d0, d1] "mean" = .ok B
      ∧ (∀ i j, B i j =
          (∑ a ∈ Finset.range (c0 / d0), ∑ b ∈ Finset.range (c1 / d1),
            g (i * (c0 / d0) + a) (j * (c1 / d1) + b)) /
          (((c0 / d0) * (c1 / d1) : ℕ) : ℚ))
      ∧ matMean d0 d1 B = matMean c0 c1 g)
    ∧ (∀ operation : String,
        ¬ (pyLower operation = "sum" ∨ pyLower operation = "mean") →
        bin_ndarray c0 c1 g [d0, d1] operation = .error "Operation not supported.")
    ∧ (∀ shape : List ℕ, shape.length ≠ 2 →
        bin_ndarray c0 c1 g shape "mean" = .error "Shape mismatch") := by
  refine ⟨⟨_, bin_ndarray_mean_ok c0 c1 d0 d1 g hd0 hd1, ?_, ?_⟩, ?_, ?_⟩
  · intro i j
    show (∑ a ∈ Finset.range (c0 / d0),
      (∑ b ∈ Finset.range (c1 / d1),
        g (i * (c0 / d0) + a) (j * (c1 / d1) + b)) / ((c1 / d1 : ℕ) : ℚ)) /
      ((c0 / d0 : ℕ) : ℚ) = _
    rw [← Finset.sum_div, div_div,
      mul_comm ((c1 / d1 : ℕ) : ℚ) ((c0 / d0 : ℕ) : ℚ)]
    push_cast
    ring_nf
  · exact twoStageMean_global c0 c1 d0 d1 g hd0 hd1 h0 h1 hc0 hc1
  · intro operation hop
    simp [bin_ndarray, hop]
  · intro shape hsh
    simp [bin_ndarray, hsh, show pyLower "mean" = "mean" by decide]


theorem bin_ndarray_spec_witness :
    ((0:ℕ) < 1 ∧ (1:ℕ) ∣ 2 ∧ (0:ℕ) < 2) ∧
    ((∃ B, bin_ndarray 2 2 gB [1, 1] "mean" = .ok B
      ∧ (∀ i j, B i j =
          (∑ a ∈ Finset.range (2 / 1), ∑ b ∈ Finset.range (2 / 1),
            gB (i * (2 / 1) + a) (j * (2 / 1) + b)) /
          (((2 / 1) * (2 / 1) : ℕ) : ℚ))
      ∧ matMean 1 1 B = matMean 2 2 gB)
    ∧ (∀ operation : String,
        ¬ (pyLower operation = "sum" ∨ pyLower operation = "mean") →
        bin_ndarray 2 2 gB [1, 1] operation = .error "Operation not supported.")
    ∧ (∀ shape : List ℕ, shape.length ≠ 2 →
        bin_ndarray 2 2 gB shape "mean" = .error "Shape mismatch")) :=
  ⟨⟨by decide, by decide, by decide⟩,
   bin_ndarray_spec 2 2 1 1 gB (by decide) (by decide) (by decide) (by decide)
     (by decide) (by decide)⟩

/-- The decrement loop returns the largest divisor of `N` that is at most
the initial target. -/
theorem chooseRes_spec (N : ℕ) (hN : 0 < N) :
    ∀ t, 0 < t → chooseRes N t ∣ N ∧ chooseRes N t ≤ t ∧ 0 < chooseRes N t ∧
      ∀ e, e ∣ N → e ≤ t → e ≤ chooseRes N t := by
  intro t
  induction t with
  | zero => intro h; exact absurd h (lt_irrefl 0)
  | succ t ih =>
    intro _
    by_cases h : N % (t + 1) = 0
    · have hc : chooseRes N (t + 1) = t + 1 := by simp [chooseRes, h]
      rw [hc]
      exact ⟨Nat.dvd_of_mod_eq_zero h, le_refl _, Nat.succ_pos t, fun e _ he => he⟩
    · have hc : chooseRes N (t + 1) = chooseRes N t := by simp [chooseRes, h]
      have ht : 0 < t := by
        rcases Nat.eq_zero_or_pos t with h0 | h0
        · subst h0; simp [Nat.mod_one] at h
        · exact h0
      obtain ⟨hd, hle, hpos, hmax⟩ := ih ht
      rw [hc]
      refine ⟨hd, le_trans hle (Nat.le_succ t), hpos, fun e he hle2 => ?_⟩
      have hne : e ≠ t + 1 := by
        intro heq
        subst heq
        exact h (Nat.mod_eq_zero_of_dvd he)
      exact hmax e he (by omega)

/-- C7: `get_zernike_modes` picks the largest divisor of the side length
that is at most the target (replaced by the complementary divisor when
smaller than it), block-mean-bins the map to that resolution, and returns
`noZernikeModes` coefficients, the `k`-th being the doubly nested
trapezoidal integral of the binned map times basis mode `k+1`, divided by
the nonzero-pixel count of the basis at that resolution. -/
theorem get_zernike_modes_spec (zern : ℕ → ℕ → ℕ → ℕ → ℚ) (N : ℕ)
    (image_unwrap : ℕ → ℕ → ℚ) (noZernikeModes resize_dim : ℕ)
    (hN : 0 < N) (ht : 0 < resize_dim) :
    (chooseRes N resize_dim ∣ N ∧ chooseRes N resize_dim ≤ resize_dim ∧
      ∀ e, e ∣ N → e ≤ resize_dim → e ≤ chooseRes N resize_dim) ∧
    ∃ B res, res = (if chooseRes N resize_dim < N / chooseRes N resize_dim
        then N / chooseRes N resize_dim else chooseRes N resize_dim) ∧
      bin_ndarray N N image_unwrap [res, res] "mean" = .ok B ∧
      (∀ i j, B i j = (∑ a ∈ Finset.range (N / res), ∑ b ∈ Finset.range (N / res),
        image_unwrap (i * (N / res) + a) (j * (N / res) + b)) /
        (((N / res) * (N / res) : ℕ) : ℚ)) ∧
      get_zernike_modes zern N image_unwrap noZernikeModes resize_dim =
        .ok ((List.range noZernikeModes).map (fun k =>
          trapzFun res (fun i =>
            trapzFun res (fun j => B i j * zern (k + 1) res i j)) /
          ((countNonzero res (zern 1 res) : ℕ) : ℚ))) ∧
      ((List.range noZernikeModes).map (fun k =>
          trapzFun res (fun i =>
            trapzFun res (fun j => B i j * zern (k + 1) res i j)) /
          ((countNonzero res (zern 1 res) : ℕ) : ℚ))).length = noZernikeModes := by
  obtain ⟨hdvd, hle, hdpos, hmax⟩ := chooseRes_spec N hN resize_dim ht
  refine ⟨⟨hdvd, hle, hmax⟩, ?_⟩
  set d := chooseRes N resize_dim with hd
  set res := (if d < N / d then N / d else d) with hresdef
  have hresdvd : res ∣ N := by
    rw [hresdef]
    split
    · exact Nat.div_dvd_of_dvd hdvd
    · exact hdvd
  have hbin := bin_ndarray_mean_ok N N res res image_unwrap hresdvd hresdvd
  refine ⟨_, res, rfl, hbin, ?_, ?_, ?_⟩
  · intro i j
    rw [← Finset.sum_div, div_div,
      mul_comm ((N / res : ℕ) : ℚ) ((N / res : ℕ) : ℚ)]
    push_cast
    ring_nf
  · simp only [get_zernike_modes, ← hresdef, hbin]
  · simp



theorem get_zernike_modes_spec_witness :
    ((0:ℕ) < 4 ∧ (0:ℕ) < 2) ∧
    ((chooseRes 4 2 ∣ 4 ∧ chooseRes 4 2 ≤ 2 ∧
      ∀ e, e ∣ 4 → e ≤ 2 → e ≤ chooseRes 4 2) ∧
    ∃ B res, res = (if chooseRes 4 2 < 4 / chooseRes 4 2
        then 4 / chooseRes 4 2 else chooseRes 4 2) ∧
      bin_ndarray 4 4 img1 [res, res] "mean" = .ok B ∧
      (∀ i j, B i j = (∑ a ∈ Finset.range (4 / res), ∑ b ∈ Finset.range (4 / res),
        img1 (i * (4 / res) + a) (j * (4 / res) + b)) /
        (((4 / res) * (4 / res) : ℕ) : ℚ)) ∧
      get_zernike_modes zern1 4 img1 1 2 =
        .ok ((List.range 1).map (fun k =>
          trapzFun res (fun i =>
            trapzFun res (fun j => B i j * zern1 (k + 1) res i j)) /
          ((countNonzero res (zern1 1 res) : ℕ) : ℚ))) ∧
      ((List.range 1).map (fun k =>
          trapzFun res (fun i =>
            trapzFun res (fun j => B i j * zern1 (k + 1) res i j)) /
          ((countNonzero res (zern1 1 res) : ℕ) : ℚ))).length = 1) :=
  ⟨⟨by decide, by decide⟩,
   get_zernike_modes_spec zern1 4 img1 1 2 (by decide) (by decide)⟩

/-- C1: when every in-pupil actuator has at least two nonzero-step
samples, `create_control_matrix` succeeds and returns exactly the library
pseudo-inverse of the built sensitivity matrix at the given relative
singular-value threshold; the sensitivity matrix (typed `numModes ×
numActuators`) has an all-zero column at every actuator outside the
pupil. -/
theorem create_control_matrix_builds_pinv (S M A : ℕ)
    (pinv : (Fin M → Fin A → ℚ) → ℚ → (Fin A → Fin M → ℚ))
    (zernikeAmps : Fin S → Fin M → ℚ) (pokeSteps : Fin S → Fin A → ℚ)
    (pupil_ac : Fin A → ℚ) (threshold : ℚ)
    (h : ∀ ii : Fin A, pupil_ac ii = 1 →
      2 ≤ (nonzeroSamples S A pokeSteps ii).card) :
    create_control_matrix S M A pinv zernikeAmps pokeSteps pupil_ac threshold =
      .ok (pinv (sensitivity_matrix S M A zernikeAmps pokeSteps pupil_ac) threshold) ∧
    ∀ ii : Fin A, pupil_ac ii ≠ 1 →
      ∀ kk : Fin M, sensitivity_matrix S M A zernikeAmps pokeSteps pupil_ac kk ii = 0 := by
  constructor
  · have hfind : (List.finRange A).find?
        (fun ii => decide (pupil_ac ii = 1) &&
          decide ((nonzeroSamples S A pokeSteps ii).card < 2)) = none := by
      rw [List.find?_eq_none]
      intro ii _
      simp only [Bool.and_eq_true, decide_eq_true_eq, not_and]
      intro h1 h2
      exact absurd h2 (by have := h ii h1; omega)
    unfold create_control_matrix
    rw [hfind]
  · intro ii hii kk
    simp [sensitivity_matrix, hii]





theorem create_control_matrix_builds_pinv_witness :
    (∀ ii : Fin 1, pupil1 ii = 1 → 2 ≤ (nonzeroSamples 2 1 poke2 ii).card) ∧
    (create_control_matrix 2 1 1 pinv0 amps2 poke2 pupil1 0.005 =
      .ok (pinv0 (sensitivity_matrix 2 1 1 amps2 poke2 pupil1) 0.005) ∧
    ∀ ii : Fin 1, pupil1 ii ≠ 1 →
      ∀ kk : Fin 1, sensitivity_matrix 2 1 1 amps2 poke2 pupil1 kk ii = 0) :=
  ⟨by decide,
   create_control_matrix_builds_pinv 2 1 1 pinv0 amps2 poke2 pupil1 0.005 (by decide)⟩

/-- C3: when some in-pupil actuator has fewer than two nonzero-step
samples, `create_control_matrix` raises the insufficient-samples error,
naming (1-based) an in-pupil actuator that is deficient. -/
theorem create_control_matrix_insufficient_samples (S M A : ℕ)
    (pinv : (Fin M → Fin A → ℚ) → ℚ → (Fin A → Fin M → ℚ))
    (zernikeAmps : Fin S → Fin M → ℚ) (pokeSteps : Fin S → Fin A → ℚ)
    (pupil_ac : Fin A → ℚ) (threshold : ℚ) (ii0 : Fin A)
    (h1 : pupil_ac ii0 = 1) (h2 : (nonzeroSamples S A pokeSteps ii0).card < 2) :
    ∃ ii : Fin A, pupil_ac ii = 1 ∧ (nonzeroSamples S A pokeSteps ii).card < 2 ∧
      create_control_matrix S M A pinv zernikeAmps pokeSteps pupil_ac threshold =
        .error (.insufficientSamples (ii.val + 1)) := by
  have hsome : ((List.finRange A).find?
      (fun ii => decide (pupil_ac ii = 1) &&
        decide ((nonzeroSamples S A pokeSteps ii).card < 2))).isSome := by
    rw [List.find?_isSome]
    exact ⟨ii0, List.mem_finRange ii0, by simp [h1, h2]⟩
  obtain ⟨jj, hjj⟩ := Option.isSome_iff_exists.mp hsome
  have hpj := List.find?_some hjj
  simp only [Bool.and_eq_true, decide_eq_true_eq] at hpj
  refine ⟨jj, hpj.1, hpj.2, ?_⟩
  unfold create_control_matrix
  rw [hjj]


theorem create_control_matrix_insufficient_samples_witness :
    (pupil1 0 = 1 ∧ (nonzeroSamples 2 1 poke1 0).card < 2 ∧
      (nonzeroSamples 2 1 poke1 0).card = 1) ∧
    (∃ ii : Fin 1, pupil1 ii = 1 ∧ (nonzeroSamples 2 1 poke1 ii).card < 2 ∧
      create_control_matrix 2 1 1 pinv0 amps2 poke1 pupil1 0.005 =
        .error (.insufficientSamples (ii.val + 1))) :=
  ⟨⟨by decide, by decide, by decide⟩,
   create_control_matrix_insufficient_samples 2 1 1 pinv0 amps2 poke1 pupil1
     0.005 0 (by decide) (by decide)⟩

/-- C2: command synthesis pads a short mode vector with zeros on the right
to the control matrix's mode dimension (truncating a long one), returns
the matrix–vector product of length `numActuators` when the product's
length agrees, and raises the dimension-mismatch error otherwise. -/
theorem ac_pos_from_zernike_spec (A M : ℕ) (cm : ℕ → ℕ → ℚ)
    (applied_z_modes : List ℚ) (numActuators : ℕ) :
    (A = numActuators →
      ac_pos_from_zernike A M cm applied_z_modes numActuators =
        .ok ((List.range A).map (fun i => ∑ j ∈ Finset.range M, cm i j *
          ((applied_z_modes.take M ++
            List.replicate (M - applied_z_modes.length) 0).getD j 0))) ∧
      ((List.range A).map (fun i => ∑ j ∈ Finset.range M, cm i j *
          ((applied_z_modes.take M ++
            List.replicate (M - applied_z_modes.length) 0).getD j 0))).length =
        numActuators)
    ∧ (A ≠ numActuators →
      ac_pos_from_zernike A M cm applied_z_modes numActuators =
        .error .dimensionMismatch) := by
  have happ :
      (if applied_z_modes.length < M then
        applied_z_modes ++ List.replicate (M - applied_z_modes.length) 0
      else if M < applied_z_modes.length then applied_z_modes.take M
      else applied_z_modes) =
      applied_z_modes.take M ++ List.replicate (M - applied_z_modes.length) 0 := by
    rcases lt_trichotomy applied_z_modes.length M with h | h | h
    · rw [if_pos h, List.take_of_length_le (le_of_lt h)]
    · rw [if_neg (by omega), if_neg (by omega), ← h, List.take_length,
        Nat.sub_self]
      simp
    · rw [if_neg (by omega), if_pos h]
      have h0 : M - applied_z_modes.length = 0 := by omega
      rw [h0]
      simp
  constructor
  · intro hA
    refine ⟨?_, by simp [hA]⟩
    unfold ac_pos_from_zernike
    simp only [happ]
    rw [if_pos (by simp [hA])]
  · intro hA
    unfold ac_pos_from_zernike
    simp only [happ]
    rw [if_neg (by simpa using hA)]


theorem ac_pos_from_zernike_spec_witness :
    ((2:ℕ) = 2 ∧
      ac_pos_from_zernike 2 2 cm2 [1] 2 =
        .ok ((List.range 2).map (fun i => ∑ j ∈ Finset.range 2, cm2 i j *
          ((([(1:ℚ)]).take 2 ++
            List.replicate (2 - ([(1:ℚ)]).length) 0).getD j 0))) ∧
      ((List.range 2).map (fun i => ∑ j ∈ Finset.range 2, cm2 i j *
          ((([(1:ℚ)]).take 2 ++
            List.replicate (2 - ([(1:ℚ)]).length) 0).getD j 0))).length = 2) ∧
    ((2:ℕ) ≠ 3 ∧
      ac_pos_from_zernike 2 2 cm2 [1] 3 = .error .dimensionMismatch) :=
  ⟨⟨rfl, (ac_pos_from_zernike_spec 2 2 cm2 [1] 2).1 rfl⟩,
   ⟨by decide, (ac_pos_from_zernike_spec 2 2 cm2 [1] 3).2 (by decide)⟩⟩

theorem le_foldl_max (l : List ℚ) (init : ℚ) : init ≤ l.foldl max init := by
  induction l generalizing init with
  | nil => exact le_refl init
  | cons x xs ih =>
    exact le_trans (le_max_left init x) (ih (max init x))

theorem mem_le_foldl_max (l : List ℚ) (init : ℚ) :
    ∀ x ∈ l, x ≤ l.foldl max init := by
  induction l generalizing init with
  | nil => intro x hx; simp at hx
  | cons y ys ih =>
    intro x hx
    rcases List.mem_cons.mp hx with h | h
    · subst h
      exact le_trans (le_max_right init x) (le_foldl_max ys (max init x))
    · exact ih (max init y) x h

/-- Every element of a list is at most its `np.max`. -/
theorem le_listMax (l : List ℚ) : ∀ x ∈ l, x ≤ listMax l :=
  fun x hx => mem_le_foldl_max l (l.headD 0) x hx

/-- The mean of a nonempty list is at most its maximum. -/
theorem npMean_le_listMax (l : List ℚ) (hl : l ≠ []) : npMean l ≤ listMax l := by
  unfold npMean
  have hn : 0 < (l.length : ℚ) := by
    have := List.length_pos.mpr hl
    exact_mod_cast this
  rw [div_le_iff hn]
  calc l.sum ≤ l.length • listMax l := List.sum_le_card_nsmul l _ (le_listMax l)
    _ = (l.length : ℚ) * listMax l := by rw [nsmul_eq_mul]
    _ = listMax l * l.length := mul_comm _ _

/-- `np.var` is nonnegative. -/
theorem npVar_nonneg (l : List ℚ) : 0 ≤ npVar l := by
  unfold npVar
  apply div_nonneg
  · apply List.sum_nonneg
    intro x hx
    obtain ⟨y, _, rfl⟩ := List.mem_map.mp hx
    positivity
  · positivity

/-- Justification for writing the source's fallback test
`max - mean >= 2*np.sqrt(np.var(...))` in squared form: both sides being
nonnegative, the comparison is equivalent to
`(max - mean)^2 >= 4*np.var(...)`. -/
theorem twoSigma_sq_iff (l : List ℚ) (hl : l ≠ []) :
    (2 * Real.sqrt ((npVar l : ℚ) : ℝ) ≤ ((listMax l - npMean l : ℚ) : ℝ)) ↔
    4 * npVar l ≤ (listMax l - npMean l) ^ 2 := by
  have hc : (0:ℝ) ≤ ((listMax l - npMean l : ℚ) : ℝ) := by
    have h := npMean_le_listMax l hl
    have h' : (0:ℚ) ≤ listMax l - npMean l := by linarith
    exact_mod_cast h'
  have hv : (0:ℝ) ≤ ((npVar l : ℚ) : ℝ) := by exact_mod_cast npVar_nonneg l
  have hs : (0:ℝ) ≤ Real.sqrt ((npVar l : ℚ) : ℝ) := Real.sqrt_nonneg _
  have hs2 : Real.sqrt ((npVar l : ℚ) : ℝ) ^ 2 = ((npVar l : ℚ) : ℝ) :=
    Real.sq_sqrt hv
  constructor
  · intro h
    have key : 4 * ((npVar l : ℚ) : ℝ) ≤ ((listMax l - npMean l : ℚ) : ℝ) ^ 2 := by
      nlinarith [h, hs, hs2, hc]
    exact_mod_cast key
  · intro h
    have key : 4 * ((npVar l : ℚ) : ℝ) ≤ ((listMax l - npMean l : ℚ) : ℝ) ^ 2 := by
      exact_mod_cast h
    nlinarith [key, hs, hs2, hc,
      sq_nonneg (((listMax l - npMean l : ℚ) : ℝ) - 2 * Real.sqrt ((npVar l : ℚ) : ℝ)),
      sq_nonneg (((listMax l - npMean l : ℚ) : ℝ) + 2 * Real.sqrt ((npVar l : ℚ) : ℝ))]

/-- C4 fails on the code: when the fit does not converge and the maximum
metric clears the two-sigma test, the returned value is the *negation*
(`amplitude_present = -1.0 * mean`) of the applied amplitude at which the
maximum metric was observed (as a one-element array here), not that
amplitude itself.  Metrics `[0,0,0,0,0,1]`: max 1, mean 1/6, variance
5/36, so `(max - mean)^2 = 25/36 > 4·var = 20/36` with a strict margin;
the max is observed at amplitude `3`, and the call returns `[-3]`,
not `3`. -/
theorem find_zernike_amp_fallback_counterexample :
    find_zernike_amp_sensorless (fun i : ℕ => if i = 5 then (1:ℚ) else 0)
      (fun _ _ _ _ => none) [0, 1, 2, 3, 4, 5] [-2, -1, 0, 1, 2, 3] =
      PyVal.arr [-3] ∧
    PyVal.arr [-3] ≠ PyVal.scalar 3 ∧ PyVal.arr [-3] ≠ PyVal.arr [3] := by
  refine ⟨?_, by simp, by norm_num⟩
  simp only [find_zernike_amp_sensorless, List.map, listMax, listMin, npMean, npVar,
    List.foldl, List.headD, List.sum, List.zip, List.zipWith, List.filter]
  norm_num

/-- C4 (amended): when the nonlinear fit fails to converge the call never
raises: if the maximum measured metric exceeds the mean by at least two
standard deviations it returns the negation (times -1) of the applied
amplitude(s) at which the maximum metric was observed (the boolean-mask
selection, a one-element array when the maximum is unique); otherwise it
returns amplitude 0. -/
theorem find_zernike_amp_fallback_amended {Img : Type} (metric : Img → ℚ)
    (curve_fit : List ℚ → List ℚ → ℚ → ℚ → Option GaussFit)
    (image_stack : List Img) (zernike_amplitudes : List ℚ)
    (hfail : curve_fit zernike_amplitudes (image_stack.map metric)
      (listMin zernike_amplitudes -
        (1/4 : ℚ) * (listMax zernike_amplitudes - listMin zernike_amplitudes))
      (listMax zernike_amplitudes +
        (1/4 : ℚ) * (listMax zernike_amplitudes - listMin zernike_amplitudes)) =
      none) :
    ((listMax (image_stack.map metric) - npMean (image_stack.map metric)) ^ 2 ≥
        4 * npVar (image_stack.map metric) →
      find_zernike_amp_sensorless metric curve_fit image_stack zernike_amplitudes =
        .arr (((zernike_amplitudes.zip (image_stack.map metric)).filter
          (fun p => p.2 = listMax (image_stack.map metric))).map (fun p => -1 * p.1)))
    ∧ (¬ ((listMax (image_stack.map metric) - npMean (image_stack.map metric)) ^ 2 ≥
        4 * npVar (image_stack.map metric)) →
      find_zernike_amp_sensorless metric curve_fit image_stack zernike_amplitudes =
        .scalar 0) := by
  constructor
  · intro hc
    simp only [find_zernike_amp_sensorless]
    rw [hfail, if_pos hc]
  · intro hc
    simp only [find_zernike_amp_sensorless]
    rw [hfail, if_neg hc]
    norm_num



theorem find_zernike_amp_fallback_amended_witness :
    (cfNone [0, 1, 2, 3, 4] (([0, 1, 2, 3, 4] : List ℕ).map metric4)
      (listMin [0, 1, 2, 3, 4] -
        (1/4 : ℚ) * (listMax [0, 1, 2, 3, 4] - listMin [0, 1, 2, 3, 4]))
      (listMax [0, 1, 2, 3, 4] +
        (1/4 : ℚ) * (listMax [0, 1, 2, 3, 4] - listMin [0, 1, 2, 3, 4])) = none) ∧
    (((listMax (([0, 1, 2, 3, 4] : List ℕ).map metric4) -
        npMean (([0, 1, 2, 3, 4] : List ℕ).map metric4)) ^ 2 ≥
        4 * npVar (([0, 1, 2, 3, 4] : List ℕ).map metric4) →
      find_zernike_amp_sensorless metric4 cfNone [0, 1, 2, 3, 4] [0, 1, 2, 3, 4] =
        .arr ((([0, 1, 2, 3, 4].zip (([0, 1, 2, 3, 4] : List ℕ).map metric4)).filter
          (fun p => p.2 = listMax (([0, 1, 2, 3, 4] : List ℕ).map metric4))).map
          (fun p => -1 * p.1)))
    ∧ (¬ ((listMax (([0, 1, 2, 3, 4] : List ℕ).map metric4) -
        npMean (([0, 1, 2, 3, 4] : List ℕ).map metric4)) ^ 2 ≥
        4 * npVar (([0, 1, 2, 3, 4] : List ℕ).map metric4)) →
      find_zernike_amp_sensorless metric4 cfNone [0, 1, 2, 3, 4] [0, 1, 2, 3, 4] =
        .scalar 0)) :=
  ⟨rfl, find_zernike_amp_fallback_amended metric4 cfNone [0, 1, 2, 3, 4]
    [0, 1, 2, 3, 4] rfl⟩

/-- C5: when the fit converges, the call returns the negation (times -1)
of the fitted peak location, and — `curve_fit` honouring its bounds, the
hypothesis `hcontract` — that peak location lies within
`[min - 0.25*range, max + 0.25*range]` of the sampled amplitudes. -/
theorem find_zernike_amp_converged {Img : Type} (metric : Img → ℚ)
    (curve_fit : List ℚ → List ℚ → ℚ → ℚ → Option GaussFit)
    (image_stack : List Img) (zernike_amplitudes : List ℚ) (p : GaussFit)
    (hcontract : ∀ a m lo hi q, curve_fit a m lo hi = some q →
      lo ≤ q.mean ∧ q.mean ≤ hi)
    (hconv : curve_fit zernike_amplitudes (image_stack.map metric)
      (listMin zernike_amplitudes -
        (1/4 : ℚ) * (listMax zernike_amplitudes - listMin zernike_amplitudes))
      (listMax zernike_amplitudes +
        (1/4 : ℚ) * (listMax zernike_amplitudes - listMin zernike_amplitudes)) =
      some p) :
    find_zernike_amp_sensorless metric curve_fit image_stack zernike_amplitudes =
      .scalar (-1 * p.mean) ∧
    listMin zernike_amplitudes -
      (1/4 : ℚ) * (listMax zernike_amplitudes - listMin zernike_amplitudes) ≤
      p.mean ∧
    p.mean ≤ listMax zernike_amplitudes +
      (1/4 : ℚ) * (listMax zernike_amplitudes - listMin zernike_amplitudes) := by
  have hb := hcontract _ _ _ _ _ hconv
  refine ⟨?_, hb.1, hb.2⟩
  simp only [find_zernike_amp_sensorless]
  rw [hconv]



theorem find_zernike_amp_converged_witness :
    (∀ a m lo hi q, cfBounded a m lo hi = some q →
      lo ≤ q.mean ∧ q.mean ≤ hi) ∧
    (cfBounded [-1, 1] (([0] : List ℕ).map metric0)
      (listMin [-1, 1] - (1/4 : ℚ) * (listMax [-1, 1] - listMin [-1, 1]))
      (listMax [-1, 1] + (1/4 : ℚ) * (listMax [-1, 1] - listMin [-1, 1])) =
      some ⟨0, 1, 0, 1⟩) ∧
    (find_zernike_amp_sensorless metric0 cfBounded [0] [-1, 1] =
      .scalar (-1 * (⟨0, 1, 0, 1⟩ : GaussFit).mean) ∧
    listMin [-1, 1] - (1/4 : ℚ) * (listMax [-1, 1] - listMin [-1, 1]) ≤
      (⟨0, 1, 0, 1⟩ : GaussFit).mean ∧
    (⟨0, 1, 0, 1⟩ : GaussFit).mean ≤
      listMax [-1, 1] + (1/4 : ℚ) * (listMax [-1, 1] - listMin [-1, 1])) := by
  have hcontract : ∀ a m lo hi q, cfBounded a m lo hi = some q →
      lo ≤ q.mean ∧ q.mean ≤ hi := by
    intro a m lo hi q h
    unfold cfBounded at h
    by_cases hc : lo ≤ (0:ℚ) ∧ (0:ℚ) ≤ hi
    · rw [if_pos hc] at h
      cases h
      exact hc
    · rw [if_neg hc] at h
      exact absurd h (by simp)
  have hconv : cfBounded [-1, 1] (([0] : List ℕ).map metric0)
      (listMin [-1, 1] - (1/4 : ℚ) * (listMax [-1, 1] - listMin [-1, 1]))
      (listMax [-1, 1] + (1/4 : ℚ) * (listMax [-1, 1] - listMin [-1, 1])) =
      some ⟨0, 1, 0, 1⟩ := by
    unfold cfBounded
    rw [if_pos]
    constructor
    · simp only [listMin, listMax, List.foldl, List.headD]
      norm_num
    · simp only [listMin, listMax, List.foldl, List.headD]
      norm_num
  exact ⟨hcontract, hconv,
    find_zernike_amp_converged metric0 cfBounded [0] [-1, 1] ⟨0, 1, 0, 1⟩
      hcontract hconv⟩

/-- C6 fails on the code: the returned coefficient vector has the length
of the applied-amplitude array's mode dimension
(`np.zeros(full_zernike_applied.shape[1])`), not the number of requested
modes.  With one requested mode (`nollZernike = [1]`) against a 1×2
applied array, the result has length 2, not 1. -/
theorem get_zernike_modes_sensorless_len_counterexample :
    ¬ ((get_zernike_modes_sensorless
        (fun (_ : List ℕ) (_ : List ℚ) => (1 : ℚ)) [0] 1 2
        (fun _ _ => 0) [1]).length = ([1] : List ℕ).length) := by
  decide

theorem getD_set_ne (l : List ℚ) (n j : ℕ) (a d : ℚ) (h : n ≠ j) :
    (l.set n a).getD j d = l.getD j d := by
  simp [List.getD_eq_getElem?_getD, List.getElem?_set_ne h]

theorem getD_set_self (l : List ℚ) (n : ℕ) (a d : ℚ) (h : n < l.length) :
    (l.set n a).getD n d = a := by
  simp [List.getD_eq_getElem?_getD, List.getElem?_set_self, h]

theorem foldl_set_length (tgt : ℕ → ℕ) (v : ℕ → ℚ) (init : List ℚ) (k : ℕ) :
    ((List.range k).foldl (fun coef ii => coef.set (tgt ii) (v ii)) init).length =
      init.length := by
  induction k with
  | zero => rfl
  | succ k ih =>
    rw [List.range_succ, List.foldl_append]
    simp [ih]

theorem foldl_set_getD_of_notin (tgt : ℕ → ℕ) (v : ℕ → ℚ) (init : List ℚ)
    (k : ℕ) (j : ℕ) (hj : ∀ ii, ii < k → tgt ii ≠ j) :
    ((List.range k).foldl (fun coef ii => coef.set (tgt ii) (v ii)) init).getD j 0 =
      init.getD j 0 := by
  induction k with
  | zero => rfl
  | succ k ih =>
    rw [List.range_succ, List.foldl_append]
    simp only [List.foldl_cons, List.foldl_nil]
    rw [getD_set_ne _ _ _ _ _ (hj k (Nat.lt_succ_self k))]
    exact ih (fun ii hii => hj ii (Nat.lt_succ_of_lt hii))

theorem foldl_set_getD_of_write (tgt : ℕ → ℕ) (v : ℕ → ℚ) (init : List ℚ)
    (k : ℕ) (ii : ℕ) (hii : ii < k)
    (hinj : ∀ i1 i2, i1 < k → i2 < k → i1 ≠ i2 → tgt i1 ≠ tgt i2)
    (hlen : tgt ii < init.length) :
    ((List.range k).foldl (fun coef ii => coef.set (tgt ii) (v ii)) init).getD
      (tgt ii) 0 = v ii := by
  induction k with
  | zero => exact absurd hii (Nat.not_lt_zero ii)
  | succ k ih =>
    rw [List.range_succ, List.foldl_append]
    simp only [List.foldl_cons, List.foldl_nil]
    rcases Nat.lt_succ_iff_lt_or_eq.mp hii with h | h
    · rw [getD_set_ne _ _ _ _ _
        (hinj k ii (Nat.lt_succ_self k) (Nat.lt_succ_of_lt h) (by omega))]
      exact ih h (fun i1 i2 h1 h2 =>
        hinj i1 i2 (Nat.lt_succ_of_lt h1) (Nat.lt_succ_of_lt h2))
    · subst h
      exact getD_set_self _ _ _ _ (by rw [foldl_set_length]; exact hlen)

/-- C6 (amended): the stack is partitioned into `K` equal contiguous
blocks of `S / K` images (block `ii` covering images
`ii*(S/K) .. (ii+1)*(S/K) - 1`), block `ii` is handed to the single-mode
estimator with the amplitudes applied to mode `modeIndices[ii]`, each
result lands at 0-based position `modeIndices[ii] - 1`, every other
position stays 0 — but the output vector's length is the applied array's
mode dimension `M`, not the number of requested modes. -/
theorem get_zernike_modes_sensorless_amended {Img : Type}
    (estim : List Img → List ℚ → ℚ) (full_image_stack : List Img)
    (S M : ℕ) (g : ℕ → ℕ → ℚ) (noll : List ℕ)
    (hK : 0 < noll.length) (hstack : full_image_stack.length = S)
    (hdvd : noll.length ∣ S)
    (hmodes : ∀ x ∈ noll, 1 ≤ x ∧ x ≤ M)
    (hnodup : noll.Nodup) :
    (get_zernike_modes_sensorless estim full_image_stack S M g noll).length = M ∧
    (∀ ii, ii < noll.length →
      (get_zernike_modes_sensorless estim full_image_stack S M g noll).getD
          (noll.getD ii 0 - 1) 0 =
        estim ((full_image_stack.drop (ii * (S / noll.length))).take (S / noll.length))
          ((List.range (S / noll.length)).map
            (fun t => g (ii * (S / noll.length) + t) (noll.getD ii 0 - 1)))) ∧
    (∀ j, j < M → (∀ ii, ii < noll.length → noll.getD ii 0 - 1 ≠ j) →
      (get_zernike_modes_sensorless estim full_image_stack S M g noll).getD j 0 = 0) := by
  have hinj : ∀ i1 i2, i1 < noll.length → i2 < noll.length → i1 ≠ i2 →
      noll.getD i1 0 - 1 ≠ noll.getD i2 0 - 1 := by
    intro i1 i2 h1 h2 hne
    rw [List.getD_eq_getElem noll 0 h1, List.getD_eq_getElem noll 0 h2]
    have hv1 := hmodes noll[i1] (List.getElem_mem h1)
    have hv2 := hmodes noll[i2] (List.getElem_mem h2)
    have : noll[i1] ≠ noll[i2] := fun he => hne (hnodup.getElem_inj_iff.mp he)
    omega
  have hlen : ∀ ii, ii < noll.length → noll.getD ii 0 - 1 < M := by
    intro ii hii
    rw [List.getD_eq_getElem noll 0 hii]
    have := hmodes noll[ii] (List.getElem_mem hii)
    omega
  refine ⟨?_, ?_, ?_⟩
  · unfold get_zernike_modes_sensorless
    rw [foldl_set_length]
    exact List.length_replicate M 0
  · intro ii hii
    unfold get_zernike_modes_sensorless
    rw [foldl_set_getD_of_write _ _ _ _ ii hii hinj
      (by rw [List.length_replicate]; exact hlen ii hii)]
  · intro j hj hnot
    unfold get_zernike_modes_sensorless
    rw [foldl_set_getD_of_notin _ _ _ _ j hnot]
    simp [List.getD_eq_getElem?_getD, List.getElem?_replicate, hj]



theorem get_zernike_modes_sensorless_amended_witness :
    ((0:ℕ) < ([2, 1] : List ℕ).length ∧ ([10, 20] : List ℕ).length = 2 ∧
      ([2, 1] : List ℕ).length ∣ 2 ∧
      (∀ x ∈ ([2, 1] : List ℕ), 1 ≤ x ∧ x ≤ 2) ∧ ([2, 1] : List ℕ).Nodup) ∧
    ((get_zernike_modes_sensorless estim1 [10, 20] 2 2 gApplied [2, 1]).length = 2 ∧
    (∀ ii, ii < ([2, 1] : List ℕ).length →
      (get_zernike_modes_sensorless estim1 [10, 20] 2 2 gApplied [2, 1]).getD
          (([2, 1] : List ℕ).getD ii 0 - 1) 0 =
        estim1 ((([10, 20] : List ℕ).drop (ii * (2 / ([2, 1] : List ℕ).length))).take
            (2 / ([2, 1] : List ℕ).length))
          ((List.range (2 / ([2, 1] : List ℕ).length)).map
            (fun t => gApplied (ii * (2 / ([2, 1] : List ℕ).length) + t)
              (([2, 1] : List ℕ).getD ii 0 - 1)))) ∧
    (∀ j, j < 2 → (∀ ii, ii < ([2, 1] : List ℕ).length →
        ([2, 1] : List ℕ).getD ii 0 - 1 ≠ j) →
      (get_zernike_modes_sensorless estim1 [10, 20] 2 2 gApplied [2, 1]).getD j 0 = 0)) :=
  ⟨⟨by decide, by decide, by decide, by decide, by decide⟩,
   get_zernike_modes_sensorless_amended estim1 [10, 20] 2 2 gApplied [2, 1]
     (by decide) (by decide) (by decide) (by decide) (by decide)⟩

/-- C8 (amended): with no FourierFilter or no ApertureMask set,
`unwrap_interferometry` raises — but it raises the `TypeError` that comes
from using the absent (`None`) filter or mask in an array product; the
function contains no calibration check and no dedicated
not-calibrated error. -/
theorem unwrap_interferometry_uncalibrated {α : Type} (fftshiftA : α → α)
    (tukeyMulA : α → α) (fft2A : α → α) (mulA : α → α → α)
    (rollToCentreA : α → α → α) (ifft2A : α → α) (arctan2A : α → α)
    (unwrap_phaseA : α → α) (st : AOState α) (image : α)
    (h : st.fft_filter = none ∨ st.mask = none) :
    unwrap_interferometry fftshiftA tukeyMulA fft2A mulA rollToCentreA
      ifft2A arctan2A unwrap_phaseA st image = .error UnwrapErr.typeError := by
  unfold unwrap_interferometry
  rcases hf : st.fft_filter with _ | filt
  · rfl
  · rcases hm : st.mask with _ | m
    · rfl
    · rcases h with h | h
      · rw [hf] at h; cases h
      · rw [hm] at h; cases h

/-- C8 fails on the code: on a completely uncalibrated state the phase
extraction fails with the `None`-arithmetic `TypeError`, which is not a
`NotCalibratedError`. -/
theorem unwrap_interferometry_counterexample :
    unwrap_interferometry (α := ℚ) id id id (fun a _ => a) (fun a _ => a)
      id id id (initState ℚ) 0 = .error UnwrapErr.typeError ∧
    (Except.error UnwrapErr.typeError : Except UnwrapErr ℚ) ≠
      .error UnwrapErr.notCalibratedError := by
  exact ⟨rfl, by simp⟩


theorem unwrap_interferometry_uncalibrated_witness :
    (stMaskOnly.fft_filter = none ∨ stMaskOnly.mask = none) ∧
    unwrap_interferometry (α := ℚ) id id id (fun a _ => a) (fun a _ => a)
      id id id stMaskOnly 0 = .error UnwrapErr.typeError :=
  ⟨Or.inl rfl,
   unwrap_interferometry_uncalibrated id id id (fun a _ => a) (fun a _ => a)
     id id id stMaskOnly 0 (Or.inl rfl)⟩

theorem clampIdx_le (x : ℤ) (n : ℕ) : clampIdx x n ≤ n := by
  unfold clampIdx
  split_ifs with h1 h2
  · exact Nat.zero_le n
  · omega
  · exact min_le_right _ _

/-- Python slicing clips: no selected index reaches the axis length, so
the windowed extraction never reads out of bounds. -/
theorem pySliceIdx_lt (lo hi : ℤ) (n : ℕ) : ∀ i ∈ pySliceIdx lo hi n, i < n := by
  intro i hi'
  unfold pySliceIdx at hi'
  rw [List.mem_range'_1] at hi'
  have := clampIdx_le hi n
  omega

/-- For an estimate inside an `n`-pixel axis with `2*h ≤ n`, a window
`m-h : m+h` that leaves the axis clips to an extent that is neither the
full `2*h` nor the broadcastable 1. -/
theorem slice_extent_oob (n h : ℕ) (m : ℤ) (hn : 2 * h ≤ n)
    (hin : 0 ≤ m ∧ m < n)
    (hoob : m - (h : ℤ) < 0 ∨ (n : ℤ) < m + h) :
    (pySliceIdx (m - h) (m + h) n).length ≠ 2 * h ∧
    (pySliceIdx (m - h) (m + h) n).length ≠ 1 := by
  unfold pySliceIdx clampIdx
  simp only [List.length_range']
  split_ifs <;> omega

/-- The even window side produced by the `window_dim` adjustment. -/
theorem adjWindow_even (o : Option ℕ) : adjWindow o % 2 = 0 := by
  rcases o with _ | w
  · rfl
  · show (if w % 2 ≠ 0 then w + 1 else w) % 2 = 0
    split_ifs with h <;> omega

/-- A step error reached after `k < K` clean passes is the loop's
result. -/
theorem refineIter_error (fft : ℕ → ℕ → CEntry) (n W : ℕ) (com : ComStep)
    (e : FilterErr) :
    ∀ k K : ℕ, ∀ start mp : ℤ × ℤ, k < K →
      refineIter fft n W com k start = .ok mp →
      stepOnce fft n W com mp = .error e →
      refineIter fft n W com K start = .error e := by
  intro k
  induction k with
  | zero =>
    intro K start mp hk h0 hstep
    have hsm : start = mp := by
      simpa [refineIter] using h0
    subst hsm
    cases K with
    | zero => omega
    | succ K' => simp [refineIter, hstep]
  | succ k ih =>
    intro K start mp hk h hstep
    cases K with
    | zero => omega
    | succ K' =>
      cases hs : stepOnce fft n W com start with
      | error e' => simp [refineIter, hs] at h
      | ok next =>
        have h' : refineIter fft n W com k next = .ok mp := by
          simpa [refineIter, hs] using h
        have hrec := ih K' next mp (by omega) h' hstep
        simp [refineIter, hs, hrec]

/-- C9 (amended): when the spectrum side is at least the (even-adjusted)
window size and some refinement pass reaches an estimate inside the
spectrum whose window would extend past the spectrum's bounds,
`make_fft_filter` fails with the guarded stripes-too-fine error; and the
clipped slices never select an out-of-bounds index.  (For spectra smaller
than the window — in particular side = windowSize - 1 — the clipped
window can have extent 1, which NumPy broadcasts into the buffer, and no
error is raised; see the counterexample.) -/
theorem make_fft_filter_oob_amended
    (spectrumOf : (ℕ → ℕ → CEntry) → (ℕ → ℕ → CEntry)) (com : ComStep)
    (sinVec : ℕ → ℕ → ℚ) (n : ℕ) (image : ℕ → ℕ → CEntry)
    (region? window_dim? mask_di? : Option ℕ) (k : ℕ) (mp : ℤ × ℤ)
    (hk : k < 10) (hn : adjWindow window_dim? ≤ n)
    (htraj : refineIter (mffSpectrum spectrumOf n image region?) n
      (adjWindow window_dim?) com k
      (mffStart n (mffSpectrum spectrumOf n image region?)) = .ok mp)
    (hin : 0 ≤ mp.1 ∧ mp.1 < n ∧ 0 ≤ mp.2 ∧ mp.2 < n)
    (hoob : axisOOB n (adjWindow window_dim?) mp.1 ∨
      axisOOB n (adjWindow window_dim?) mp.2) :
    make_fft_filter spectrumOf com sinVec n image region? window_dim? mask_di? =
      .error FilterErr.stripesTooFine ∧
    ∀ lo hi : ℤ, ∀ i ∈ pySliceIdx lo hi n, i < n := by
  set W := adjWindow window_dim? with hWdef
  have heven : 2 * (W / 2) = W := by
    have := adjWindow_even window_dim?
    omega
  have hn2 : 2 * (W / 2) ≤ n := by omega
  have hfalse : (broadcastInto
      (pySliceIdx (mp.2 - (W / 2 : ℕ)) (mp.2 + (W / 2 : ℕ)) n).length W &&
      broadcastInto
      (pySliceIdx (mp.1 - (W / 2 : ℕ)) (mp.1 + (W / 2 : ℕ)) n).length W) =
      false := by
    rcases hoob with h | h
    · have hext := slice_extent_oob n (W / 2) mp.1 hn2 ⟨hin.1, hin.2.1⟩
        (by unfold axisOOB at h; exact h)
      rw [heven] at hext
      have hcols : broadcastInto
          (pySliceIdx (mp.1 - (W / 2 : ℕ)) (mp.1 + (W / 2 : ℕ)) n).length W =
          false := by
        unfold broadcastInto
        simp only [Bool.or_eq_false_iff, beq_eq_false_iff_ne]
        exact ⟨hext.1, hext.2⟩
      rw [hcols, Bool.and_false]
    · have hext := slice_extent_oob n (W / 2) mp.2 hn2 ⟨hin.2.2.1, hin.2.2.2⟩
        (by unfold axisOOB at h; exact h)
      rw [heven] at hext
      have hrows : broadcastInto
          (pySliceIdx (mp.2 - (W / 2 : ℕ)) (mp.2 + (W / 2 : ℕ)) n).length W =
          false := by
        unfold broadcastInto
        simp only [Bool.or_eq_false_iff, beq_eq_false_iff_ne]
        exact ⟨hext.1, hext.2⟩
      rw [hrows, Bool.false_and]
  have hstep : stepOnce (mffSpectrum spectrumOf n image region?) n W com mp =
      .error FilterErr.stripesTooFine := by
    simp only [stepOnce]
    rw [hfalse]
    simp
  have herr := refineIter_error (mffSpectrum spectrumOf n image region?) n W com
    FilterErr.stripesTooFine k 10
    (mffStart n (mffSpectrum spectrumOf n image region?)) mp hk htraj hstep
  constructor
  · simp only [make_fft_filter]
    rw [herr]
  · exact fun lo hi => pySliceIdx_lt lo hi n





/-- C9 fails on the code as stated: on a 3×3 spectrum with window size 4
(spectrum side = windowSize - 1), the initial estimate (0,0) is nearer
than half a window to the edge and every refinement window extends past
the bounds, yet each clipped slice has extent 1, NumPy broadcasts it into
the window buffer, no `ValueError` is raised, and the call returns a
filter instead of the stripes error. -/
theorem make_fft_filter_counterexample :
    axisOOB 3 (adjWindow (some 4)) 0 ∧
    mffStart 3 (mffSpectrum specC 3 imgC (some 0)) = (0, 0) ∧
    refineIter (mffSpectrum specC 3 imgC (some 0)) 3 (adjWindow (some 4)) comC 0
      (mffStart 3 (mffSpectrum specC 3 imgC (some 0))) = .ok (0, 0) ∧
    (make_fft_filter specC comC sinC 3 imgC (some 0) (some 4) none).isOk = true ∧
    make_fft_filter specC comC sinC 3 imgC (some 0) (some 4) none ≠
      .error FilterErr.stripesTooFine := by
  refine ⟨by unfold axisOOB; decide, by decide, by rfl, by rfl, ?_⟩
  intro he
  have hok : (make_fft_filter specC comC sinC 3 imgC (some 0) (some 4)
      none).isOk = true := by rfl
  rw [he] at hok
  exact absurd hok (by decide)

theorem make_fft_filter_oob_amended_witness :
    ((0:ℕ) < 10 ∧ adjWindow (some 4) ≤ 4 ∧
     refineIter (mffSpectrum specC 4 imgC (some 0)) 4 (adjWindow (some 4)) comC 0
       (mffStart 4 (mffSpectrum specC 4 imgC (some 0))) = .ok (0, 0) ∧
     ((0:ℤ) ≤ ((0:ℤ), (0:ℤ)).1 ∧ ((0:ℤ), (0:ℤ)).1 < (4:ℕ) ∧
      (0:ℤ) ≤ ((0:ℤ), (0:ℤ)).2 ∧ ((0:ℤ), (0:ℤ)).2 < (4:ℕ)) ∧
     (axisOOB 4 (adjWindow (some 4)) ((0:ℤ), (0:ℤ)).1 ∨
       axisOOB 4 (adjWindow (some 4)) ((0:ℤ), (0:ℤ)).2)) ∧
    (make_fft_filter specC comC sinC 4 imgC (some 0) (some 4) none =
      .error FilterErr.stripesTooFine ∧
     ∀ lo hi : ℤ, ∀ i ∈ pySliceIdx lo hi 4, i < 4) :=
  ⟨⟨by decide, by decide, by rfl, by decide,
     by unfold axisOOB; decide⟩,
   make_fft_filter_oob_amended specC comC sinC 4 imgC (some 0) (some 4) none
     0 ((0:ℤ), (0:ℤ)) (by decide) (by decide) (by rfl) (by decide)
     (Or.inl (by unfold axisOOB; decide))⟩
